import Mathlib

/-!
Shallow embedding of the `deaddev::bitmask` C++ header (bitmask.hpp).

Machine integers of the enumeration's underlying type (`mask_type`, an
unsigned integer of bit width `w`) are modelled as `Nat`; the bitwise
operators `&`, `|`, `^` on values below `2 ^ w` stay below `2 ^ w`, so no
explicit truncation is needed for them.  Where the C++ code truncates
(`static_cast<T>` of a wider `int` value in the empty-list all-flags
default) we write the `% 2 ^ w` explicitly.

An eligible enumeration is characterised, for the operations the claims
touch, by its registered all-flags value `A`
(`deaddev::details::bitmask_all_flags_v<T>`); the class
`deaddev::bitmask<T>` is therefore embedded as a structure parameterised
by `A`.  The two C++ overloads taking `enum_type` and taking `bitmask`
collapse to one function here, because an enum value is promoted by
`static_cast<mask_type>` to exactly the integer the `bitmask` overload
reads from `other.mask_`.
-/

namespace deaddev

namespace details

/-- Embedding of `deaddev::details::combine_flags`: `result |= value`. -/
def combine_flags (result : Nat) (value : Nat) : Nat :=
  result ||| value

/-- Embedding of `deaddev::details::calculate_all_flags_cpp_17`: starts from
`result = 0` and folds `combine_flags` over the argument pack. -/
def calculate_all_flags_cpp_17 (args : List Nat) : Nat :=
  args.foldl combine_flags 0

/-- Embedding of the variadic `deaddev::details::calculate_all_flags`
overload (the one selected whenever at least one flag is passed), which
delegates to `calculate_all_flags_cpp_17`. -/
def calculate_all_flags (args : List Nat) : Nat :=
  calculate_all_flags_cpp_17 args

/-- Embedding of the zero-argument `deaddev::details::calculate_all_flags`
overload: `static_cast<T>((1 << (sizeof(T) * CHAR_BIT)) - 1)`.  The shift is
performed on the `int` literal `1` and is a defined constant expression only
for widths `w` below the width of `int` (32); the final `static_cast<T>`
truncates to the `w`-bit underlying type, written here as `% 2 ^ w`. -/
def calculate_all_flags_empty (w : Nat) : Nat :=
  ((1 <<< w) - 1) % 2 ^ w

end details

/-- Embedding of the class `deaddev::bitmask<T>`: a single field `mask_` of
the underlying integer type.  The parameter `A` is the registered all-flags
value `deaddev::details::bitmask_all_flags_v<T>` of the enumeration. -/
structure bitmask (A : Nat) where
  mask_ : Nat
deriving DecidableEq, Repr

namespace bitmask

variable {A : Nat}

/-- Embedding of the static member `all_flags()`:
`bitmask(bitmask_all_flags_v<enum_type>)`. -/
def all_flags (A : Nat) : bitmask A :=
  ⟨A⟩

/-- Embedding of the member `operator~`:
`bitmask(static_cast<mask_type>(mask_ ^ all_flags().mask_))`. -/
def opNeg (m : bitmask A) : bitmask A :=
  ⟨m.mask_ ^^^ (all_flags A).mask_⟩

/-- Embedding of the member `operator^(bitmask other)`. -/
def opXor (m other : bitmask A) : bitmask A :=
  ⟨m.mask_ ^^^ other.mask_⟩

/-- Embedding of the member `operator|(bitmask other)`. -/
def opOr (m other : bitmask A) : bitmask A :=
  ⟨m.mask_ ||| other.mask_⟩

/-- Embedding of the member `operator&(bitmask other)`. -/
def opAnd (m other : bitmask A) : bitmask A :=
  ⟨m.mask_ &&& other.mask_⟩

/-- Embedding of the member `operator^(enum_type other)`; the C++ code
computes `mask_ ^ static_cast<mask_type>(other)`. -/
def opXorE (m : bitmask A) (other : Nat) : bitmask A :=
  ⟨m.mask_ ^^^ other⟩

/-- Embedding of the member `operator|(enum_type other)`. -/
def opOrE (m : bitmask A) (other : Nat) : bitmask A :=
  ⟨m.mask_ ||| other⟩

/-- Embedding of the member `operator&(enum_type other)`. -/
def opAndE (m : bitmask A) (other : Nat) : bitmask A :=
  ⟨m.mask_ &&& other⟩

/-- Embedding of the member `operator==(mask_type mask)`. -/
def eq_raw (m : bitmask A) (mask : Nat) : Bool :=
  m.mask_ == mask

/-- Embedding of the member `operator!=(mask_type mask)`. -/
def ne_raw (m : bitmask A) (mask : Nat) : Bool :=
  m.mask_ != mask

/-- Embedding of the member `operator<=(mask_type mask)`. -/
def le_raw (m : bitmask A) (mask : Nat) : Bool :=
  decide (m.mask_ ≤ mask)

/-- Embedding of the member `operator>=(mask_type mask)`. -/
def ge_raw (m : bitmask A) (mask : Nat) : Bool :=
  decide (m.mask_ ≥ mask)

/-- Embedding of the member `operator<(mask_type mask)`. -/
def lt_raw (m : bitmask A) (mask : Nat) : Bool :=
  decide (m.mask_ < mask)

/-- Embedding of the member `operator>(mask_type mask)`. -/
def gt_raw (m : bitmask A) (mask : Nat) : Bool :=
  decide (m.mask_ > mask)

/-- Embedding of the member `is_set(enum_type flag)`:
`(mask_ & static_cast<mask_type>(flag)) == static_cast<mask_type>(flag)`.
The `is_set(bitmask other)` overload reads `other.mask_`, the same integer. -/
def is_set (m : bitmask A) (flag : Nat) : Bool :=
  (m.mask_ &&& flag) == flag

/-- Embedding of the member `set(enum_type flag)`: `*this |= flag`, which
performs `mask_ |= static_cast<mask_type>(flag)`. -/
def set (m : bitmask A) (flag : Nat) : bitmask A :=
  ⟨m.mask_ ||| flag⟩

/-- Embedding of the member `remove(enum_type flag)`: `*this ^= flag`, which
performs `mask_ ^= static_cast<mask_type>(flag)`. -/
def remove (m : bitmask A) (flag : Nat) : bitmask A :=
  ⟨m.mask_ ^^^ flag⟩

end bitmask

end deaddev

/-- Embedding of the free `operator==(T left, bitmask<T> right)`:
`return right == left;` (reversed order). -/
def free_eq {A : Nat} (left : Nat) (right : deaddev.bitmask A) : Bool :=
  right.eq_raw left

/-- Embedding of the free `operator!=(T left, bitmask<T> right)`:
`return right != left;`. -/
def free_ne {A : Nat} (left : Nat) (right : deaddev.bitmask A) : Bool :=
  right.ne_raw left

/-- Embedding of the free `operator>=(T left, bitmask<T> right)`:
`return right <= left;` (reversed order, flipped direction). -/
def free_ge {A : Nat} (left : Nat) (right : deaddev.bitmask A) : Bool :=
  right.le_raw left

/-- Embedding of the free `operator<=(T left, bitmask<T> right)`:
`return right >= left;`. -/
def free_le {A : Nat} (left : Nat) (right : deaddev.bitmask A) : Bool :=
  right.ge_raw left

/-- Embedding of the free `operator<(T left, bitmask<T> right)`:
`return right > left;`. -/
def free_lt {A : Nat} (left : Nat) (right : deaddev.bitmask A) : Bool :=
  right.gt_raw left

/-- Embedding of the free `operator>(T left, bitmask<T> right)`:
`return right < left;`. -/
def free_gt {A : Nat} (left : Nat) (right : deaddev.bitmask A) : Bool :=
  right.lt_raw left

/-- Embedding of the free unary `operator~(T flag)`:
`return ~bitmask<T>(flag);`. -/
def free_neg (A : Nat) (flag : Nat) : deaddev.bitmask A :=
  (deaddev.bitmask.mk flag).opNeg

/-- Embedding of the free `operator^(T left, T right)`:
`return bitmask<T>(left) ^ right;`. -/
def free_xor (A : Nat) (left right : Nat) : deaddev.bitmask A :=
  (deaddev.bitmask.mk left).opXorE right

/-- Embedding of the free `operator|(T left, T right)`:
`return bitmask<T>(left) | right;`. -/
def free_or (A : Nat) (left right : Nat) : deaddev.bitmask A :=
  (deaddev.bitmask.mk left).opOrE right

/-- Embedding of the free `operator&(T left, T right)`:
`return bitmask<T>(left) & right;`. -/
def free_and (A : Nat) (left right : Nat) : deaddev.bitmask A :=
  (deaddev.bitmask.mk left).opAndE right

/-- The registered all-flags value of the test enumeration
`simple_bitmask_flag_bits` (underlying type `uint16_t`):
`DEADDEV_ENABLE_BITMASK(simple_bitmask_flag_bits, OPTION_0_BIT (0x01),
OPTION_1_BIT (0x04), OPTION_2_BIT (0x08))` registers `0x01 | 0x04 | 0x08`. -/
def simpleAllFlags : Nat :=
  deaddev.details.calculate_all_flags [0x01, 0x04, 0x08]

/-- Evaluation of the registered all-flags value of the test enumeration:
`0x01 | 0x04 | 0x08 = 13`. -/
lemma simpleAllFlags_eq : simpleAllFlags = 13 := by decide

section helpers

open deaddev

/-- Bits of a `combine_flags` fold: a bit is set in the fold iff it is set in
the initial accumulator or in some list element. -/
lemma testBit_foldl_combine (args : List Nat) (init i : Nat) :
    (args.foldl details.combine_flags init).testBit i =
      (init.testBit i || args.any fun a => a.testBit i) := by
  induction args generalizing init with
  | nil => simp
  | cons a as ih =>
      simp only [List.foldl_cons, List.any_cons, ih, details.combine_flags,
        Nat.testBit_or, Bool.or_assoc]

/-- XOR followed by OR with the same operand equals plain OR. -/
lemma xor_lor_self (x f : Nat) : (x ^^^ f) ||| f = x ||| f := by
  apply Nat.eq_of_testBit_eq
  intro i
  simp only [Nat.testBit_or, Nat.testBit_xor]
  cases x.testBit i <;> cases f.testBit i <;> rfl

/-- Containment of a union: `x` contains every bit of `a ||| b` iff it
contains every bit of `a` and every bit of `b`. -/
lemma land_lor_eq_iff (x a b : Nat) :
    x &&& (a ||| b) = a ||| b ↔ (x &&& a = a ∧ x &&& b = b) := by
  constructor
  · intro h
    constructor <;> apply Nat.eq_of_testBit_eq <;> intro i <;>
      have hi := congrArg (fun n => Nat.testBit n i) h <;>
      simp only [Nat.testBit_and, Nat.testBit_or] at hi ⊢ <;>
      cases hx : x.testBit i <;> cases ha : a.testBit i <;>
        cases hb : b.testBit i <;> simp_all
  · rintro ⟨h1, h2⟩
    apply Nat.eq_of_testBit_eq
    intro i
    have hi1 := congrArg (fun n => Nat.testBit n i) h1
    have hi2 := congrArg (fun n => Nat.testBit n i) h2
    simp only [Nat.testBit_and, Nat.testBit_or] at hi1 hi2 ⊢
    cases hx : x.testBit i <;> cases ha : a.testBit i <;>
      cases hb : b.testBit i <;> simp_all

/-- Negation is an involution on every mask value: XOR with `all_flags`
twice restores the original word. -/
lemma opNeg_opNeg {A : Nat} (m : bitmask A) : m.opNeg.opNeg = m := by
  simp [bitmask.opNeg, bitmask.all_flags, Nat.xor_cancel_right]

/-- Bits of a mask contained in `A` are determined by `A`: when
`m &&& A = m`, every bit clear in `A` is clear in `m`. -/
lemma testBit_eq_false_of_land_self {x A i : Nat} (hm : x &&& A = x)
    (hA : A.testBit i = false) : x.testBit i = false := by
  have hi := congrArg (fun n => Nat.testBit n i) hm
  simp only [Nat.testBit_and, hA, Bool.and_false] at hi
  exact hi.symm

end helpers

open deaddev

/-- Claim C1 counterexample: over the test enumeration (all-flags value
`13 = 0x01 | 0x04 | 0x08`), bit 4 (value `0x10`) is not set in `all_flags()`,
yet for the mask `m` with value `0x10` that bit is set — and it is still set
in `~m`, so negation does not clear bits outside the registered all-flags
pattern when they are set in `m`. -/
theorem claim_C1_counterexample :
    (bitmask.all_flags simpleAllFlags).mask_.testBit 4 = false ∧
      (bitmask.mk 16 : bitmask simpleAllFlags).mask_.testBit 4 = true ∧
      ((bitmask.mk 16 : bitmask simpleAllFlags).opNeg).mask_.testBit 4 = true := by
  decide

/-- Claim C1 (amended): for every bitmask `m` whose value lies within the
registered all-flags pattern (`m & all_flags = m`), every bit position not
set in `all_flags()` is 0 in `~m`. -/
theorem claim_C1 {A : Nat} (m : bitmask A) (hm : m.mask_ &&& A = m.mask_)
    (i : Nat) (hA : A.testBit i = false) :
    (m.opNeg).mask_.testBit i = false := by
  have hx : m.mask_.testBit i = false := testBit_eq_false_of_land_self hm hA
  simp [bitmask.opNeg, bitmask.all_flags, Nat.testBit_xor, hx, hA]

/-- Claim C1 witness: the amended statement at `A = 13`, `m = 5`, `i = 1`. -/
theorem claim_C1_witness :
    ((5 : Nat) &&& simpleAllFlags = 5) ∧ (Nat.testBit simpleAllFlags 1 = false) ∧
      ((bitmask.mk 5 : bitmask simpleAllFlags).opNeg).mask_.testBit 1 = false :=
  ⟨by decide, by decide, claim_C1 (bitmask.mk 5) (by decide) 1 (by decide)⟩

/-- Claim C2 counterexample: for the mask with value `0x10` over the test
enumeration (all-flags value 13), `~(~m)` equals `m` (value 16), while
`m & all_flags()` has value 0, so `~(~m) ≠ m & all_flags()` for masks with
bits outside the declared universe. -/
theorem claim_C2_counterexample :
    (bitmask.mk 16 : bitmask simpleAllFlags).opNeg.opNeg ≠
      (bitmask.mk 16 : bitmask simpleAllFlags).opAnd (bitmask.all_flags simpleAllFlags) := by
  decide

/-- Claim C2 (amended): for every bitmask `m` whose value lies within the
declared universe (`m & all_flags = m`), double negation satisfies
`~(~m) = m & all_flags()`. -/
theorem claim_C2 {A : Nat} (m : bitmask A) (hm : m.mask_ &&& A = m.mask_) :
    m.opNeg.opNeg = m.opAnd (bitmask.all_flags A) := by
  rw [opNeg_opNeg]
  show m = bitmask.mk (m.mask_ &&& A)
  rw [hm]

/-- Claim C2 witness: the amended statement at `A = 13`, `m = 5`. -/
theorem claim_C2_witness :
    ((5 : Nat) &&& simpleAllFlags = 5) ∧
      (bitmask.mk 5 : bitmask simpleAllFlags).opNeg.opNeg =
        (bitmask.mk 5 : bitmask simpleAllFlags).opAnd (bitmask.all_flags simpleAllFlags) :=
  ⟨by decide, claim_C2 (bitmask.mk 5) (by decide)⟩

/-- Claim C3: negation is XOR with `all_flags()` — complement relative to the
declared flag universe — and not the full bitwise NOT of the 16-bit machine
word: on the cited test (`~(B|C)` with `B|C = 12` over all-flags 13) the
result is 1 (flag `A`), which differs from `12 XOR 0xFFFF`. -/
theorem claim_C3 :
    (∀ (A : Nat) (m : bitmask A), m.opNeg = bitmask.mk (m.mask_ ^^^ A)) ∧
      ((bitmask.mk 12 : bitmask simpleAllFlags).opNeg = bitmask.mk 1) ∧
      ((bitmask.mk 12 : bitmask simpleAllFlags).opNeg.mask_ ≠ 12 ^^^ (2 ^ 16 - 1)) :=
  ⟨fun _ _ => rfl, by decide, by decide⟩

/-- Claim C4: `remove(f)` computes `m XOR f`; consequently every bit of `f`
is toggled in the result — cleared when currently set in `m`, set when
currently clear in `m` (toggle semantics, not AND-NOT). -/
theorem claim_C4 {A : Nat} (f : Nat) (m : bitmask A) :
    m.remove f = bitmask.mk (m.mask_ ^^^ f) ∧
      ∀ i, f.testBit i = true →
        (m.remove f).mask_.testBit i = !(m.mask_.testBit i) := by
  refine ⟨rfl, fun i hf => ?_⟩
  simp [bitmask.remove, Nat.testBit_xor, hf]

/-- Claim C4 witness: at `A = 13`, `f = 4`, `m = 5`, bit 2 of `f` is set and
is toggled by `remove`. -/
theorem claim_C4_witness :
    (Nat.testBit 4 2 = true) ∧
      ((bitmask.mk 5 : bitmask simpleAllFlags).remove 4).mask_.testBit 2 =
        !((5 : Nat).testBit 2) :=
  ⟨by decide, (claim_C4 4 (bitmask.mk 5 : bitmask simpleAllFlags)).2 2 (by decide)⟩

/-- Claim C5: registration computes the all-flags value as the bitwise OR of
the listed flag values when the list is non-empty (a bit is set in the result
iff it is set in some listed flag), and as the full-width all-ones pattern
`2 ^ w - 1` when the list is empty (for widths where the C++ `int` shift is
a defined constant expression, `w ≤ 31`). -/
theorem claim_C5 :
    (∀ args : List Nat, args ≠ [] → ∀ i,
        (details.calculate_all_flags args).testBit i =
          (args.any fun a => a.testBit i)) ∧
      (∀ w : Nat, 0 < w → w ≤ 31 →
        details.calculate_all_flags_empty w = 2 ^ w - 1) := by
  constructor
  · intro args _ i
    simp [details.calculate_all_flags, details.calculate_all_flags_cpp_17,
      testBit_foldl_combine]
  · intro w _ _
    have h1 : (1 : Nat) <<< w = 2 ^ w := by
      simp [Nat.shiftLeft_eq]
    have h2 : 2 ^ w - 1 < 2 ^ w :=
      Nat.sub_lt (Nat.pos_pow_of_pos w (by decide)) (by decide)
    simp [details.calculate_all_flags_empty, h1, Nat.mod_eq_of_lt h2]

/-- Claim C5 witness: the non-empty part at the test enumeration's flag list
`[1, 4, 8]` and bit 3, and the empty-list part at width 16. -/
theorem claim_C5_witness :
    (([1, 4, 8] : List Nat) ≠ []) ∧
      ((details.calculate_all_flags [1, 4, 8]).testBit 3 =
        (([1, 4, 8] : List Nat).any fun a => a.testBit 3)) ∧
      (0 < 16 ∧ 16 ≤ 31 ∧ details.calculate_all_flags_empty 16 = 2 ^ 16 - 1) :=
  ⟨by decide, claim_C5.1 [1, 4, 8] (by decide) 3,
    by decide, by decide, claim_C5.2 16 (by decide) (by decide)⟩

/-- Claim C6: `m.is_set (a ||| b)` is true iff both `m.is_set a` and
`m.is_set b` are true, `is_set f` being `(mask_ &&& f) == f`. -/
theorem claim_C6 {A : Nat} (m : bitmask A) (a b : Nat) :
    m.is_set (a ||| b) = (m.is_set a && m.is_set b) := by
  rw [Bool.eq_iff_iff]
  simp only [bitmask.is_set, Bool.and_eq_true, beq_iff_eq]
  exact land_lor_eq_iff m.mask_ a b

/-- Claim C7: applying `remove f` and then `set f` leaves the mask equal to
the original value united with `f`: starting from value `v` the result has
value `v ||| f`. -/
theorem claim_C7 {A : Nat} (f : Nat) (m : bitmask A) :
    (m.remove f).set f = bitmask.mk (m.mask_ ||| f) := by
  simp only [bitmask.remove, bitmask.set]
  rw [xor_lor_self]

/-- Claim C8: each free operator with the raw value on the left returns the
same result as the mask-first member operator, with direction flipped for the
ordering operators; the member `a < b` equals `!(b <= a)` computed via the
reversed (raw, mask) free form; and the free raw-raw operators `|`, `&`, `^`
and unary `~` yield the same mask as the corresponding mask operation on
masks constructed from the raw values. -/
theorem claim_C8 {A : Nat} (a : bitmask A) (b : Nat) :
    (free_eq b a = a.eq_raw b) ∧ (free_ne b a = a.ne_raw b) ∧
      (free_ge b a = a.le_raw b) ∧ (free_le b a = a.ge_raw b) ∧
      (free_lt b a = a.gt_raw b) ∧ (free_gt b a = a.lt_raw b) ∧
      (a.lt_raw b = !(free_le b a)) ∧
      (∀ l r : Nat, free_or A l r = (bitmask.mk l).opOr (bitmask.mk r)) ∧
      (∀ l r : Nat, free_and A l r = (bitmask.mk l).opAnd (bitmask.mk r)) ∧
      (∀ l r : Nat, free_xor A l r = (bitmask.mk l).opXor (bitmask.mk r)) ∧
      (∀ l : Nat, free_neg A l = (bitmask.mk l).opNeg) := by
  refine ⟨rfl, rfl, rfl, rfl, rfl, rfl, ?_, fun _ _ => rfl, fun _ _ => rfl,
    fun _ _ => rfl, fun _ => rfl⟩
  simp only [bitmask.lt_raw, free_le, bitmask.ge_raw, ← decide_not]
  rw [decide_eq_decide]
  exact Nat.not_le.symm

/-- Claim C9: double negation restores every mask exactly, `~(~m) = m`, even
for masks with bits outside the declared universe, since XOR with the
constant `all_flags` is an involution. -/
theorem claim_C9 {A : Nat} (m : bitmask A) : m.opNeg.opNeg = m :=
  opNeg_opNeg m

/-- Claim C10: applying `remove f` twice restores the mask exactly,
regardless of whether the bits of `f` were initially set. -/
theorem claim_C10 {A : Nat} (f : Nat) (m : bitmask A) :
    (m.remove f).remove f = m := by
  simp [bitmask.remove, Nat.xor_cancel_right]
